import Mathlib

/-!
Shallow embedding of the analogue-circuit simulator core
(src/project/project/project.cpp): the component class hierarchy
(resistor, capacitor, inductor, diode, transistor) and the `circuit`
aggregation class.

Modelling conventions:
* The C++ `double` values are modelled over the exact reals `ℝ`; the
  source constant `pi` (a decimal approximation of π) is modelled as the
  exact `Real.pi`.
* A `double` that may become non-finite is modelled by `DReal := Option ℝ`:
  `some x` is the finite value `x`, `none` marks a non-finite value
  (NaN or an infinity).  On the operation paths the source actually
  executes, a `none` arises only from `sqrt` of a negative argument
  (which is NaN) and from division by an exactly-zero denominator
  (non-finite; the concrete inf/NaN pattern of `std::complex` division
  by zero is implementation-dependent), and every arithmetic operation
  with a `none` operand used here again yields a non-finite value.
* The source core contains no `throw` statement, so every embedded
  operation is a total function: there is no error channel to model.
* `circuit` stores raw pointers to components and reads
  `component->get_impedance()` at recomputation time; since no verified
  scenario mutates a member between a registration/recomputation call
  and the read inside that same call, the member list is modelled by
  the list of the members' complex impedances at that moment.
-/

namespace CircuitSim

/-- The source file's constant `pi`, modelled as the exact real π. -/
noncomputable def pi : ℝ := Real.pi

/-- A C++ `double`: `some x` is the finite real `x`, `none` a non-finite
value (NaN or infinity). -/
abbrev DReal := Option ℝ

/-- Addition of doubles: any non-finite operand poisons the result. -/
def dadd : DReal → DReal → DReal
  | some a, some b => some (a + b)
  | _, _ => none

/-- Multiplication of doubles: any non-finite operand poisons the result. -/
def dmul : DReal → DReal → DReal
  | some a, some b => some (a * b)
  | _, _ => none

/-- Division of doubles: division by an exactly-zero denominator yields a
non-finite value, and any non-finite operand poisons the result. -/
noncomputable def ddiv : DReal → DReal → DReal
  | some a, some b => if b = 0 then none else some (a / b)
  | _, _ => none

/-- `std::sqrt` on a double: the square root of a negative argument is NaN. -/
noncomputable def dsqrt : DReal → DReal
  | some a => if a < 0 then none else some (Real.sqrt a)
  | none => none

/-- `std::abs` of a `std::complex<double>` (the modulus): non-finite if a
part is non-finite. -/
noncomputable def dabs : DReal → DReal → DReal
  | some a, some b => some (Complex.abs ⟨a, b⟩)
  | _, _ => none

/-- `std::arg` of a `std::complex<double>`: non-finite if a part is
non-finite. -/
noncomputable def darg : DReal → DReal → DReal
  | some a, some b => some (Complex.arg ⟨a, b⟩)
  | _, _ => none

/-- The five concrete component classes with their constructor parameters
(the closed set of `components` subclasses in the source). -/
inductive comp
  | resistor (resistance : ℝ)
  | capacitor (capacitance : ℝ)
  | inductor (inductance : ℝ)
  | diode (capacitance resistance saturation_current : ℝ)
  | transistor (collector_current base_current emitter_current
      collector_emitter_voltage base_emitter_voltage : ℝ)

/-- The mutable state of a component object: its construction parameters
(immutable), the protected `frequency` field (base-class default 0), and
the two parts of the protected `std::complex<double> impedance` field. -/
structure cstate where
  params : comp
  frequency : ℝ
  re : DReal
  im : DReal

/-- The body of `diode::set_frequency`: `j = std::sqrt(-1)` (NaN as a
real), `denom = 1.0 + (j * 2*pi*f * capacitance * resistance)`, and the
stored impedance `(resistance / denom, omega_s / (j * 2*pi*f *
capacitance * denom))`, with the source's left-to-right grouping. -/
noncomputable def diode_impedance
    (capacitance resistance saturation_current f : ℝ) : DReal × DReal :=
  let omega_s := saturation_current * resistance / capacitance
  let j := dsqrt (some (-1))
  let t := dmul (dmul (dmul (dmul j (some 2)) (some pi)) (some f)) (some capacitance)
  let denom := dadd (some 1) (dmul t (some resistance))
  (ddiv (some resistance) denom, ddiv (some omega_s) (dmul t denom))

/-- Each constructor: `resistor` stores `impedance = resistance`;
`capacitor` evaluates `-1.0 / (2.0*pi*frequency*capacitance)` at the
base-class default `frequency = 0` (a division by zero); `inductor`
stores `(0, 2*pi*inductance)` (the source omits the frequency factor);
`diode` stores `(0, resistance)`; `transistor` stores
`(collector_emitter_voltage / collector_current, 0)`. -/
noncomputable def construct : comp → cstate
  | comp.resistor r => ⟨comp.resistor r, 0, some r, some 0⟩
  | comp.capacitor c =>
      ⟨comp.capacitor c, 0, some 0, ddiv (some (-1)) (some (2 * pi * 0 * c))⟩
  | comp.inductor l => ⟨comp.inductor l, 0, some 0, some (2 * pi * l)⟩
  | comp.diode c r i => ⟨comp.diode c r i, 0, some 0, some r⟩
  | comp.transistor cc bc ec cev bev =>
      ⟨comp.transistor cc bc ec cev bev, 0, ddiv (some cev) (some cc), some 0⟩

/-- The virtual `set_frequency(f)` of each class: `resistor` stores only
the frequency; `capacitor` recomputes `(0, -1.0/(2*pi*f*capacitance))`;
`inductor` recomputes `(0, 2*pi*f*inductance)`; `diode` recomputes via
`diode_impedance`; `transistor` is a no-op. -/
noncomputable def set_frequency (f : ℝ) (s : cstate) : cstate :=
  match s.params with
  | comp.resistor r => ⟨comp.resistor r, f, s.re, s.im⟩
  | comp.capacitor c =>
      ⟨comp.capacitor c, f, some 0, ddiv (some (-1)) (some (2 * pi * f * c))⟩
  | comp.inductor l => ⟨comp.inductor l, f, some 0, some (2 * pi * f * l)⟩
  | comp.diode c r i =>
      ⟨comp.diode c r i, f, (diode_impedance c r i f).1, (diode_impedance c r i f).2⟩
  | comp.transistor _ _ _ _ _ => s

/-- The virtual `get_frequency()`: the stored frequency, except that
`transistor::get_frequency` returns the literal `0.0`. -/
def get_frequency (s : cstate) : ℝ :=
  match s.params with
  | comp.transistor _ _ _ _ _ => 0
  | _ => s.frequency

/-- The virtual `get_impedance()`: the stored complex impedance. -/
def get_impedance (s : cstate) : DReal × DReal := (s.re, s.im)

/-- The virtual `get_impedance_magnitude()`: `std::abs(impedance)`. -/
noncomputable def get_impedance_magnitude (s : cstate) : DReal :=
  dabs s.re s.im

/-- The virtual `get_phase_difference()`: computed as `std::arg(impedance)`
for `resistor` and `diode`, but the hardcoded constants `-pi/2`, `pi/2`
and `0.0` for `capacitor`, `inductor` and `transistor`. -/
noncomputable def get_phase_difference (s : cstate) : DReal :=
  match s.params with
  | comp.resistor _ => darg s.re s.im
  | comp.capacitor _ => some (-(pi / 2))
  | comp.inductor _ => some (pi / 2)
  | comp.diode _ _ _ => darg s.re s.im
  | comp.transistor _ _ _ _ _ => some 0

/-- `circuit::update_impedance_series`: `total = 0; for each member:
total += impedance`. -/
def update_impedance_series (zs : List ℂ) : ℂ :=
  zs.foldl (fun total z => total + z) 0

/-- One iteration of the `update_impedance_parallel` loop:
`total += 1.0 / impedance`.  Dividing by an exactly-zero impedance
yields a non-finite value, and adding to a non-finite total stays
non-finite. -/
noncomputable def pstep (total : Option ℂ) (z : ℂ) : Option ℂ :=
  match total with
  | none => none
  | some a => if z = 0 then none else some (a + 1 / z)

/-- `circuit::update_impedance_parallel`: `total = 0; for each member:
total += 1.0 / impedance; total = 1.0 / total`.  A division whose
denominator is exactly zero, and every subsequent operation on its
result, yields a non-finite double, modelled by `none`; no check is
performed and nothing is thrown. -/
noncomputable def update_impedance_parallel (zs : List ℂ) : Option ℂ :=
  match zs.foldl pstep (some (0 : ℂ)) with
  | none => none
  | some a => if a = 0 then none else some (1 / a)

/-- The `circuit` object: the member list (modelled by the members'
current complex impedances), the cached `total_impedance` (an `Option`,
`none` marking a non-finite cached value), and the local `frequency`. -/
structure circuit where
  component_list : List ℂ
  total_impedance : Option ℂ
  frequency : ℝ

/-- The `circuit()` constructor: `total_impedance(0.0), frequency(0.0)`. -/
def circuit.init : circuit := ⟨[], some 0, 0⟩

/-- `circuit::add_component_in_series`: push the component, then
recompute the total under the series rule. -/
def circuit.add_component_in_series (c : circuit) (z : ℂ) : circuit :=
  let l := c.component_list ++ [z]
  ⟨l, some (update_impedance_series l), c.frequency⟩

/-- `circuit::add_component_in_parallel`: push the component, then
recompute the total under the parallel rule. -/
noncomputable def circuit.add_component_in_parallel (c : circuit) (z : ℂ) : circuit :=
  let l := c.component_list ++ [z]
  ⟨l, update_impedance_parallel l, c.frequency⟩

/-- `circuit::set_frequency`: store `f`, then call
`update_impedance_series()` and then `update_impedance_parallel()` —
both, unconditionally, so the parallel recomputation overwrites the
series one. -/
noncomputable def circuit.set_frequency (c : circuit) (f : ℝ) : circuit :=
  let c1 : circuit := ⟨c.component_list, some (update_impedance_series c.component_list), f⟩
  ⟨c1.component_list, update_impedance_parallel c1.component_list, c1.frequency⟩

/-- `circuit::get_circuit_impedance`: the cached total. -/
def get_circuit_impedance (c : circuit) : Option ℂ :=
  c.total_impedance

/-- `circuit::get_total_impedance_magntiude` (source spelling):
`std::abs(total_impedance)`. -/
noncomputable def get_total_impedance_magntiude (c : circuit) : DReal :=
  match c.total_impedance with
  | some z => some (Complex.abs z)
  | none => none

/-- Registering a whole list of components via repeated
`add_component_in_series` calls. -/
def add_all_series (c : circuit) (zs : List ℂ) : circuit :=
  zs.foldl circuit.add_component_in_series c

/-- Registering a whole list of components via repeated
`add_component_in_parallel` calls. -/
noncomputable def add_all_parallel (c : circuit) (zs : List ℂ) : circuit :=
  zs.foldl circuit.add_component_in_parallel c

theorem foldl_add_eq (a : ℂ) (zs : List ℂ) :
    zs.foldl (fun total z => total + z) a = a + zs.sum := by
  induction zs generalizing a with
  | nil => simp
  | cons z t ih => simp [List.foldl, ih, add_assoc]

theorem update_impedance_series_eq_sum (zs : List ℂ) :
    update_impedance_series zs = zs.sum := by
  simp [update_impedance_series, foldl_add_eq]

theorem add_all_series_list (zs : List ℂ) : ∀ c : circuit,
    (add_all_series c zs).component_list = c.component_list ++ zs := by
  induction zs with
  | nil => intro c; simp [add_all_series]
  | cons z t ih =>
      intro c
      simp only [add_all_series, List.foldl_cons] at ih ⊢
      rw [ih]
      simp [circuit.add_component_in_series]

theorem add_all_parallel_list (zs : List ℂ) : ∀ c : circuit,
    (add_all_parallel c zs).component_list = c.component_list ++ zs := by
  induction zs with
  | nil => intro c; simp [add_all_parallel]
  | cons z t ih =>
      intro c
      simp only [add_all_parallel, List.foldl_cons] at ih ⊢
      rw [ih]
      simp [circuit.add_component_in_parallel]

theorem add_all_series_total (zs : List ℂ) :
    (add_all_series circuit.init zs).total_impedance = some zs.sum := by
  induction zs using List.reverseRecOn with
  | nil => rfl
  | append_singleton l z _ =>
      unfold add_all_series
      rw [List.foldl_append]
      show (circuit.add_component_in_series (add_all_series circuit.init l) z).total_impedance = _
      have hl : (add_all_series circuit.init l).component_list = l := by
        simpa [circuit.init] using add_all_series_list l circuit.init
      simp [circuit.add_component_in_series, hl, update_impedance_series_eq_sum]

theorem pstep_foldl (zs : List ℂ) : ∀ a : ℂ, (∀ z ∈ zs, z ≠ 0) →
    zs.foldl pstep (some a) = some (a + (zs.map fun z => 1 / z).sum) := by
  induction zs with
  | nil => intro a _; simp
  | cons z t ih =>
      intro a h
      have hz : z ≠ 0 := h z (List.mem_cons_self z t)
      rw [List.foldl_cons, show pstep (some a) z = some (a + 1 / z) from by simp [pstep, hz],
        ih _ (fun w hw => h w (List.mem_cons_of_mem z hw))]
      simp [add_assoc]

theorem update_impedance_parallel_eq (zs : List ℂ) (h : ∀ z ∈ zs, z ≠ 0)
    (hs : (zs.map fun z => 1 / z).sum ≠ 0) :
    update_impedance_parallel zs = some (1 / (zs.map fun z => 1 / z).sum) := by
  unfold update_impedance_parallel
  rw [pstep_foldl zs 0 h]
  show (if (0 + (zs.map fun z => 1 / z).sum) = 0 then none
    else some (1 / (0 + (zs.map fun z => 1 / z).sum))) = _
  rw [zero_add, if_neg hs]

theorem add_all_parallel_total (zs : List ℂ) (h : zs ≠ []) :
    (add_all_parallel circuit.init zs).total_impedance = update_impedance_parallel zs := by
  induction zs using List.reverseRecOn with
  | nil => cases h rfl
  | append_singleton l z _ =>
      unfold add_all_parallel
      rw [List.foldl_append]
      show (circuit.add_component_in_parallel (add_all_parallel circuit.init l) z).total_impedance = _
      have hl : (add_all_parallel circuit.init l).component_list = l := by
        simpa [circuit.init] using add_all_parallel_list l circuit.init
      simp [circuit.add_component_in_parallel, hl]

/-- C2: registering components through `add_component_in_series` leaves the
total impedance equal to the exact complex sum of the registered
impedances, and the total is invariant under the order of registration. -/
theorem series_total_is_sum_perm_invariant (zs zs' : List ℂ) (h : zs.Perm zs') :
    (add_all_series circuit.init zs).total_impedance = some zs.sum ∧
    (add_all_series circuit.init zs).total_impedance
      = (add_all_series circuit.init zs').total_impedance := by
  refine ⟨add_all_series_total zs, ?_⟩
  rw [add_all_series_total zs, add_all_series_total zs', h.sum_eq]

/-- Witness for C2 at the concrete lists `[1, 2]` and `[2, 1]`. -/
theorem series_total_witness :
    ([(1 : ℂ), 2].Perm [2, 1]) ∧
    (add_all_series circuit.init [(1 : ℂ), 2]).total_impedance = some ([(1 : ℂ), 2]).sum ∧
    (add_all_series circuit.init [(1 : ℂ), 2]).total_impedance
      = (add_all_series circuit.init [(2 : ℂ), 1]).total_impedance := by
  have hp : ([(1 : ℂ), 2]).Perm [2, 1] := List.Perm.swap 2 1 []
  exact ⟨hp, (series_total_is_sum_perm_invariant _ _ hp).1,
    (series_total_is_sum_perm_invariant _ _ hp).2⟩

/-- C3: registering components with nonzero impedances through
`add_component_in_parallel` leaves the total impedance equal to the
reciprocal of the admittance sum, `1 / Σ (1 / zᵢ)` (which requires that
sum to be nonzero for the formula to denote); in particular two equal
nonzero impedances `Z` give the total `Z / 2`. -/
theorem parallel_total_formula :
    (∀ zs : List ℂ, (∀ z ∈ zs, z ≠ 0) → (zs.map fun z => 1 / z).sum ≠ 0 →
      (add_all_parallel circuit.init zs).total_impedance
        = some (1 / (zs.map fun z => 1 / z).sum)) ∧
    ∀ Z : ℂ, Z ≠ 0 →
      (add_all_parallel circuit.init [Z, Z]).total_impedance = some (Z / 2) := by
  constructor
  · intro zs h hs
    have hne : zs ≠ [] := by rintro rfl; simp at hs
    rw [add_all_parallel_total zs hne, update_impedance_parallel_eq zs h hs]
  · intro Z hZ
    have h : ∀ z ∈ [Z, Z], z ≠ 0 := by
      intro z hz
      rcases List.mem_cons.mp hz with rfl | hz2
      · exact hZ
      · rcases List.mem_singleton.mp hz2 with rfl
        exact hZ
    have hsum : ([Z, Z].map fun z => 1 / z).sum = 2 / Z := by
      simp only [List.map_cons, List.map_nil, List.sum_cons, List.sum_nil, add_zero]
      ring
    have hs : ([Z, Z].map fun z => 1 / z).sum ≠ 0 := by
      rw [hsum]
      exact div_ne_zero two_ne_zero hZ
    rw [add_all_parallel_total _ (by simp), update_impedance_parallel_eq _ h hs, hsum,
      one_div_div]

/-- Witness for C3 at the concrete list `[2, 2]`. -/
theorem parallel_total_formula_witness :
    (∀ z ∈ [(2 : ℂ), 2], z ≠ 0) ∧ (([(2 : ℂ), 2].map fun z => 1 / z).sum ≠ 0) ∧
    (add_all_parallel circuit.init [(2 : ℂ), 2]).total_impedance
      = some (1 / ([(2 : ℂ), 2].map fun z => 1 / z).sum) ∧
    ((2 : ℂ) ≠ 0) ∧
    (add_all_parallel circuit.init [(2 : ℂ), 2]).total_impedance = some ((2 : ℂ) / 2) := by
  have h1 : ∀ z ∈ [(2 : ℂ), 2], z ≠ 0 := by norm_num
  have h2 : (([(2 : ℂ), 2]).map fun z => 1 / z).sum ≠ 0 := by norm_num
  exact ⟨h1, h2, parallel_total_formula.1 _ h1 h2, two_ne_zero,
    parallel_total_formula.2 2 two_ne_zero⟩

/-- C9: setting frequency `f1` then `f2` on any component leaves the same
impedance as constructing the component fresh and setting `f2` once. -/
theorem set_frequency_roundtrip (p : comp) (f1 f2 : ℝ) :
    get_impedance (set_frequency f2 (set_frequency f1 (construct p))) =
      get_impedance (set_frequency f2 (construct p)) := by
  cases p <;> rfl

/-- C10: `transistor::set_frequency` is a no-op: after any sequence of
`set_frequency` calls the impedance is still the construction value
`collector_emitter_voltage / collector_current`, the phase is `0`, and
`get_frequency` reports `0`. -/
theorem transistor_frame (cc bc ec cev bev : ℝ) (hcc : cc ≠ 0) (fs : List ℝ) :
    get_impedance (fs.foldl (fun st f => set_frequency f st)
        (construct (comp.transistor cc bc ec cev bev))) = (some (cev / cc), some 0) ∧
    get_phase_difference (fs.foldl (fun st f => set_frequency f st)
        (construct (comp.transistor cc bc ec cev bev))) = some 0 ∧
    get_frequency (fs.foldl (fun st f => set_frequency f st)
        (construct (comp.transistor cc bc ec cev bev))) = 0 := by
  have hfold : fs.foldl (fun st f => set_frequency f st)
      (construct (comp.transistor cc bc ec cev bev))
      = construct (comp.transistor cc bc ec cev bev) := by
    induction fs with
    | nil => rfl
    | cons f t ih =>
        rw [List.foldl_cons,
          show set_frequency f (construct (comp.transistor cc bc ec cev bev))
            = construct (comp.transistor cc bc ec cev bev) from rfl]
        exact ih
  rw [hfold]
  refine ⟨?_, rfl, rfl⟩
  show (ddiv (some cev) (some cc), (some 0 : DReal)) = (some (cev / cc), some 0)
  simp [ddiv, hcc]

/-- Witness for C10 at the transistor with all parameters `1` and the
frequency sequence `[3, 5]`. -/
theorem transistor_frame_witness :
    ((1 : ℝ) ≠ 0) ∧
    get_impedance ([(3 : ℝ), 5].foldl (fun st f => set_frequency f st)
        (construct (comp.transistor 1 1 1 1 1))) = (some ((1 : ℝ) / 1), some 0) ∧
    get_phase_difference ([(3 : ℝ), 5].foldl (fun st f => set_frequency f st)
        (construct (comp.transistor 1 1 1 1 1))) = some 0 ∧
    get_frequency ([(3 : ℝ), 5].foldl (fun st f => set_frequency f st)
        (construct (comp.transistor 1 1 1 1 1))) = 0 := by
  obtain ⟨a, b, c⟩ := transistor_frame 1 1 1 1 1 one_ne_zero [3, 5]
  exact ⟨one_ne_zero, a, b, c⟩

theorem abs_mk_zero (y : ℝ) : Complex.abs ⟨0, y⟩ = |y| := by
  rw [Complex.abs_apply, Complex.normSq_mk,
    show (0 : ℝ) * 0 + y * y = y ^ 2 by ring, Real.sqrt_sq_eq_abs]

/-- C5: for a capacitor with capacitance `c > 0`, after `set_frequency f`
with `f > 0`, the impedance magnitude is `1 / (2·π·f·c)` and the phase is
`-π/2` exactly. -/
theorem capacitor_magnitude_phase (c f : ℝ) (hc : 0 < c) (hf : 0 < f) :
    get_impedance_magnitude (set_frequency f (construct (comp.capacitor c)))
      = some (1 / (2 * pi * f * c)) ∧
    get_phase_difference (set_frequency f (construct (comp.capacitor c)))
      = some (-(pi / 2)) := by
  have hpi : (0 : ℝ) < pi := Real.pi_pos
  have hd : (0 : ℝ) < 2 * pi * f * c := by positivity
  constructor
  · show dabs (some 0) (ddiv (some (-1)) (some (2 * pi * f * c))) = _
    rw [show ddiv (some (-1)) (some (2 * pi * f * c))
        = some (-1 / (2 * pi * f * c)) from by simp [ddiv, ne_of_gt hd]]
    show some (Complex.abs ⟨0, -1 / (2 * pi * f * c)⟩) = _
    rw [abs_mk_zero, abs_div, abs_neg, abs_one, abs_of_pos hd]
  · rfl

/-- Witness for C5 at `c = 1`, `f = 1`. -/
theorem capacitor_magnitude_phase_witness :
    ((0 : ℝ) < 1) ∧
    get_impedance_magnitude (set_frequency 1 (construct (comp.capacitor 1)))
      = some (1 / (2 * pi * 1 * 1)) ∧
    get_phase_difference (set_frequency 1 (construct (comp.capacitor 1)))
      = some (-(pi / 2)) := by
  obtain ⟨a, b⟩ := capacitor_magnitude_phase 1 1 one_pos one_pos
  exact ⟨one_pos, a, b⟩

/-- C6: `diode::set_frequency` computes `j = sqrt(-1)` in real arithmetic,
which is NaN, so the stored impedance has NaN (non-finite) real and
imaginary parts and the magnitude and phase are NaN as well, for every
parameter set and every frequency. -/
theorem diode_impedance_nan (c r i f : ℝ) (s : cstate)
    (h : s.params = comp.diode c r i) :
    get_impedance (set_frequency f s) = (none, none) ∧
    get_impedance_magnitude (set_frequency f s) = none ∧
    get_phase_difference (set_frequency f s) = none := by
  have hj : dsqrt (some (-1)) = none := by norm_num [dsqrt]
  have himp : diode_impedance c r i f = (none, none) := by
    simp [diode_impedance, hj, dmul, dadd, ddiv]
  obtain ⟨p, fr, re0, im0⟩ := s
  simp only [cstate.params] at h
  subst h
  refine ⟨?_, ?_, ?_⟩ <;>
    simp [set_frequency, get_impedance, get_impedance_magnitude,
      get_phase_difference, himp, dabs, darg]

/-- Witness for C6 at the diode with parameters `1, 1, 1` and frequency `5`. -/
theorem diode_impedance_nan_witness :
    (construct (comp.diode 1 1 1)).params = comp.diode 1 1 1 ∧
    get_impedance (set_frequency 5 (construct (comp.diode 1 1 1))) = (none, none) ∧
    get_impedance_magnitude (set_frequency 5 (construct (comp.diode 1 1 1))) = none ∧
    get_phase_difference (set_frequency 5 (construct (comp.diode 1 1 1))) = none := by
  obtain ⟨a, b, c⟩ := diode_impedance_nan 1 1 1 5 (construct (comp.diode 1 1 1)) rfl
  exact ⟨rfl, a, b, c⟩

/-- C1 (code bug): two components of impedance `1` registered via
`add_component_in_series`; after `circuit::set_frequency 50` the cached
total is `1/2` — the parallel combination, because `set_frequency` runs
the series update and then unconditionally overwrites it with the
parallel update — while the series sum of the current member impedances
is `2`. -/
theorem set_frequency_series_clobbered :
    (((circuit.init.add_component_in_series 1).add_component_in_series 1).set_frequency
        50).total_impedance = some (1 / 2) ∧
    update_impedance_series
      ((((circuit.init.add_component_in_series 1).add_component_in_series 1).set_frequency
        50).component_list) = 2 ∧
    (some ((1 : ℂ) / 2) : Option ℂ) ≠ some 2 := by
  refine ⟨?_, ?_, ?_⟩
  · show update_impedance_parallel [(1 : ℂ), 1] = some (1 / 2)
    rw [update_impedance_parallel_eq [(1 : ℂ), 1] (by norm_num) (by norm_num)]
    norm_num
  · show update_impedance_series [(1 : ℂ), 1] = 2
    rw [update_impedance_series_eq_sum]
    norm_num
  · simp only [ne_eq, Option.some.injEq]
    norm_num

/-- C4 (code bug): an inductor set to frequency `0` has impedance exactly
`0`, and registering a zero-impedance component via
`add_component_in_parallel` makes the core divide by it with no check and
no exception — the cached total silently becomes a non-finite value. -/
theorem parallel_zero_impedance_silent :
    get_impedance (set_frequency 0 (construct (comp.inductor 0.01))) = (some 0, some 0) ∧
    (circuit.init.add_component_in_parallel 0).total_impedance = none := by
  constructor
  · show ((some 0 : DReal), some (2 * pi * 0 * 0.01)) = (some 0, some 0)
    norm_num
  · show update_impedance_parallel [(0 : ℂ)] = none
    simp [update_impedance_parallel, pstep]

/-- C7 (code bug): the `inductor` constructor stores the impedance
`(0, 2·π·inductance)` — the frequency factor is omitted — so a freshly
constructed inductor with `L = 1` reads back `0 + 2π·j`, not the
closed-form value `0 + j·2π·f·L` at the default frequency `0`, which
would be `0 + 0j`. -/
theorem inductor_construction_impedance_nonzero :
    get_impedance (construct (comp.inductor 1)) = (some 0, some (2 * pi * 1)) ∧
    (some (2 * pi * 1) : DReal) ≠ some 0 := by
  refine ⟨rfl, ?_⟩
  simp only [ne_eq, Option.some.injEq, mul_one, mul_eq_zero]
  push_neg
  exact ⟨two_ne_zero, Real.pi_ne_zero⟩

/-- C8 (code bug): a never-populated circuit has the zero default
aggregate, but after `circuit::set_frequency` on the empty circuit the
parallel update divides `1.0` by the zero admittance sum, so the cached
total and its magnitude are non-finite, not zero. -/
theorem empty_circuit_after_set_frequency :
    circuit.init.total_impedance = some 0 ∧
    get_total_impedance_magntiude circuit.init = some 0 ∧
    (circuit.init.set_frequency 1000).total_impedance = none ∧
    get_total_impedance_magntiude (circuit.init.set_frequency 1000) = none := by
  have hp : update_impedance_parallel [] = none := by
    simp [update_impedance_parallel]
  refine ⟨rfl, ?_, ?_, ?_⟩
  · show some (Complex.abs 0) = some 0
    simp
  · show update_impedance_parallel [] = none
    exact hp
  · simp [get_total_impedance_magntiude, circuit.set_frequency, circuit.init, hp]

end CircuitSim
